import Mathlib

set_option linter.unusedSectionVars false
set_option linter.unnecessarySimpa false

/-!
Verification development for the onelua bundler (src/onelua.js).

The file shallowly embeds the parts of the program that the verified
properties talk about:

* the depth-first dependency-graph builder `recurseResolve` together with
  the per-statement hook loop (src/onelua.js, `process`, lines 85-280);
* the module resolver `getRequiredModule` (lines 283-344) over an abstract
  filesystem;
* the parser hooks for call expressions, string-call expressions and
  assignment statements (lines 162-238);
* the emitted runtime loader `__OL__require` (lines 439-569);
* the bundle emitter `createFinalAst` (lines 346-578).

Scripts are identified by their canonical path.  In the builder model the
path type `P` and the specifier type `S` are abstract (the real program
uses strings for both); resolution is a parameter `R : P → S → Option P`
and the parsed contents of a script are abstracted to the ordered list of
hook-relevant items `C : P → List (SrcItem S)` (require calls in textual
order, export assignments, anything else).  Recursion is driven by an
explicit fuel counter so that the function is total; `.outOfFuel` is a
model artifact, never a behaviour of the program.
-/

namespace OneLua

/-- One hook-relevant item of a parsed script, in textual order: a
`require` call carrying its specifier, an assignment whose first target is
the `package.loaded[...]` export pattern, or any other statement. -/
inductive SrcItem (S : Type) where
  | require (spec : S)
  | exportAssign
  | plain
  deriving DecidableEq

/-- A rewritten item of a module body: a require call rewritten to
`__OL__require(id)` (the `target` field is ghost provenance recording which
script the specifier resolved to), an export assignment rewritten to
`__OL__cached_packages[id] = ...`, or an untouched statement. -/
inductive RStmt (P : Type) where
  | loaderCall (target : P) (id : Nat)
  | cacheWrite (id : Nat)
  | plain
  deriving DecidableEq

/-- The fatal build errors of the traversal (`process` throws strings; the
constructors carry the same data the messages name).  `.outOfFuel` is the
model's fuel-exhaustion marker. -/
inductive BuildError (P S : Type) where
  | circularDependency (p q : P)
  | moduleNotFound (spec : S) (requiring : P)
  | invalidExportPosition (p : P)
  | outOfFuel
  deriving DecidableEq

/-- The mutable state of one `process` invocation: `modulesIds` is the
path-keyed id table (`-1` means resolving in progress), `curr` is
`currModuleId`, `modulesAst` maps ids to rewritten bodies, `mainAst` is the
rewritten entry body.  `assigns` and `parses` are ghost chronological
traces: `assigns` records `(path, id)` in the order ids are handed out
(line 122), `parses` records the scripts whose contents were parsed. -/
structure BuildState (P : Type) where
  modulesIds : List (P × Int)
  curr : Nat
  modulesAst : List (Nat × List (RStmt P))
  mainAst : Option (List (RStmt P))
  assigns : List (P × Nat)
  parses : List P
  deriving DecidableEq

/-- Association-list lookup, modelling JS object property read. -/
def lookupKey {κ β : Type} [DecidableEq κ] (k : κ) : List (κ × β) → Option β
  | [] => none
  | (k', v) :: rest => if k' = k then some v else lookupKey k rest

/-- Association-list update, modelling JS object property assignment. -/
def setKey {κ β : Type} [DecidableEq κ] (k : κ) (v : β) : List (κ × β) → List (κ × β)
  | [] => [(k, v)]
  | (k', v') :: rest => if k' = k then (k', v) :: rest else (k', v') :: setKey k v rest

variable {P S : Type} [DecidableEq P]

/-- The hook-driven rewrite of one script's statements during parsing
(src/onelua.js lines 134-238 as they fire while `luaparse.parse` runs at
line 242).  `visit` is the recursive builder call for a child script
(line 142); a require resolves its specifier first (lines 135-137) and
raises `moduleNotFound` when resolution fails; an export assignment in the
entry raises `invalidExportPosition` (line 224) and otherwise stores this
module's id in the id table at once (line 235) and rewrites to a cache
write (lines 228-234). -/
def processItems (visit : P → BuildState P → Except (BuildError P S) (Nat × BuildState P))
    (R : P → S → Option P) (p : P) (isEntry : Bool) (thisId : Nat) :
    List (SrcItem S) → BuildState P → Except (BuildError P S) (List (RStmt P) × BuildState P)
  | [], st => .ok ([], st)
  | .plain :: rest, st =>
      match processItems visit R p isEntry thisId rest st with
      | .error e => .error e
      | .ok (body, st') => .ok (.plain :: body, st')
  | .exportAssign :: rest, st =>
      if isEntry then .error (.invalidExportPosition p)
      else
        match processItems visit R p isEntry thisId rest
            { st with modulesIds := setKey p (thisId : Int) st.modulesIds } with
        | .error e => .error e
        | .ok (body, st') => .ok (.cacheWrite thisId :: body, st')
  | .require spec :: rest, st =>
      match R p spec with
      | none => .error (.moduleNotFound spec p)
      | some target =>
        match visit target st with
        | .error e => .error e
        | .ok (id, st') =>
          match processItems visit R p isEntry thisId rest st' with
          | .error e => .error e
          | .ok (body, st'') => .ok (.loaderCall target id :: body, st'')

/-- The body of `recurseResolve` past the id-table check (src/onelua.js
lines 117-262): compute this module's id (`0` for the entry, else the next
sequential id, line 122), mark the script as in progress (line 124) and
record the ghost traces, parse the contents through the hooks, then for the
entry stash the rewritten body as `mainAst` (line 254) and for any other
module store its id and rewritten body (lines 256-260).  `isEntry` is
`is_entry` of line 103 (`!previousScript`), computed at the call site. -/
def recurseCore (visit : P → BuildState P → Except (BuildError P S) (Nat × BuildState P))
    (R : P → S → Option P) (C : P → List (SrcItem S)) (p : P) (isEntry : Bool)
    (st : BuildState P) : Except (BuildError P S) (Nat × BuildState P) :=
  let thisId := if isEntry then 0 else st.curr + 1
  let st1 : BuildState P :=
    { st with curr := if isEntry then st.curr else st.curr + 1,
              modulesIds := setKey p (-1 : Int) st.modulesIds,
              assigns := st.assigns ++ [(p, thisId)],
              parses := st.parses ++ [p] }
  match processItems visit R p isEntry thisId (C p) st1 with
  | .error e => .error e
  | .ok (body, st2) =>
    if isEntry then .ok (0, { st2 with mainAst := some body })
    else .ok (thisId, { st2 with modulesIds := setKey p (thisId : Int) st2.modulesIds,
                                 modulesAst := setKey thisId body st2.modulesAst })

/-- The recursive depth-first builder (src/onelua.js lines 102-263).  A
script already carrying a positive id returns it without reparsing
(lines 107-110); a script marked `-1` is a circular dependency
(lines 111-114, the error names the revisited script and the requiring
script); otherwise the script is processed by `recurseCore`.  `prev` is
`previousScript`; every recursive call passes `some p`, so the `.getD p`
default in the circular branch is never exercised (the JS would crash on
`previousScript.path` there if `prev` were null, and that point is
unreachable from a top-level call on a fresh state). -/
def recurseResolve (R : P → S → Option P) (C : P → List (SrcItem S)) :
    Nat → P → Option P → BuildState P → Except (BuildError P S) (Nat × BuildState P)
  | 0, _, _, _ => .error .outOfFuel
  | fuel+1, p, prev, st =>
    match lookupKey p st.modulesIds with
    | some v =>
      if 0 < v then .ok (v.toNat, st)
      else if v < 0 then .error (.circularDependency p (prev.getD p))
      else recurseCore (fun t s => recurseResolve R C fuel t (some p) s) R C p prev.isNone st
    | none => recurseCore (fun t s => recurseResolve R C fuel t (some p) s) R C p prev.isNone st

/-- The empty state a build starts from (`process`, lines 90-94). -/
def initState : BuildState P := ⟨[], 0, [], none, [], []⟩

/-- One whole build: `recurseResolve(entryScript, null)` from the empty
state (line 265), returning the final builder state. -/
def processBuild (R : P → S → Option P) (C : P → List (SrcItem S)) (entry : P) (fuel : Nat) :
    Except (BuildError P S) (BuildState P) :=
  (recurseResolve R C fuel entry none initState).map Prod.snd

/-- The state right after the entry script has been marked: id 0 handed
out, entry in progress, nothing else yet. -/
def entryState (entry : P) : BuildState P :=
  ⟨[(entry, (-1 : Int))], 0, [], none, [(entry, 0)], [entry]⟩

/-- Extract the payload of a successful result (used to name concrete
build outcomes in closed statements). -/
def getOk {E A : Type} (x : Except E A) (d : A) : A :=
  match x with
  | .ok r => r
  | .error _ => d

/-! ### Concrete build configurations (used in closed statements below) -/

/-- A diamond dependency graph over `Nat` paths: the entry `0` requires
`1` and `2`, and `1` requires `2` as well. -/
def Cdiamond : Nat → List (SrcItem Nat)
  | 0 => [.require 1, .require 2]
  | 1 => [.require 2]
  | 2 => [.plain]
  | _ => []

/-- Resolution for the `Nat`-path demos: the specifier is the path. -/
def Rid : Nat → Nat → Option Nat := fun _ s => some s

/-- A two-module cycle that the export-assignment breaks: the entry `0`
requires `1`; module `1` performs the export assignment first and then
requires `2`; module `2` requires `1` back. -/
def Ccycle : Nat → List (SrcItem Nat)
  | 0 => [.require 1]
  | 1 => [.exportAssign, .require 2]
  | 2 => [.require 1]
  | _ => []

/-- The same two-module cycle without the early export: module `1`
requires `2` before anything else, and `2` requires `1` back. -/
def CcycleBare : Nat → List (SrcItem Nat)
  | 0 => [.require 1]
  | 1 => [.require 2]
  | 2 => [.require 1]
  | _ => []

/-- The two-module cycle in which the *second*-entered member exports
early: the entry requires `1`, module `1` requires `2` at once, and
module `2` performs the export assignment before requiring `1` back. -/
def CcycleExportSecond : Nat → List (SrcItem Nat)
  | 0 => [.require 1]
  | 1 => [.require 2]
  | 2 => [.exportAssign, .require 1]
  | _ => []

/-- An entry script whose only statement is the export assignment; its
dependency graph is empty (hence trivially acyclic). -/
def CentryExport : Nat → List (SrcItem Nat)
  | 0 => [.exportAssign]
  | _ => []

/-- A state in which script `1` is marked in progress. -/
def stInProg : BuildState Nat := ⟨[(1, (-1 : Int))], 0, [], none, [], []⟩

/-- Rank function witnessing that the diamond graph is acyclic. -/
def rankDiamond : Nat → Nat := fun n => 2 - n

/-- All in-progress marks sit at or above the given rank bound. -/
def StackBound (st : BuildState P) (rank : P → Nat) (b : Nat) : Prop :=
  ∀ q, lookupKey q st.modulesIds = some (-1) → b ≤ rank q

/-! ### The emitted runtime loader (src/onelua.js lines 439-569) -/

/-- Runtime state of the emitted program: `cache` is the
`__OL__cached_packages` table (a total map - reading an absent Lua table
key yields nil, so the value type is expected to contain a nil value) and
`runs` counts, per id, how many times the factory body registered under
that id has executed (ghost instrumentation carried by the factories
supplied in theorems; the loader itself never touches it). -/
structure LoaderState (V : Type) where
  cache : Nat → V
  runs : Nat → Nat

/-- The loader `__OL__require` of the emitted program (src/onelua.js
lines 439-569): the guard `if __OL__cached_packages[id] then` is a Lua
truthiness test (nil and false are falsy), abstracted into the `truthy`
parameter; on a truthy cache entry return it at once, otherwise call the
factory `__OL__packages[id]()`, store the result - whatever it is - in
`__OL__cached_packages[id]` and return it.  `packages` is the registry:
one factory per id, itself a state transformer because a module body may
require other modules and export into the cache. -/
def OLrequire {V : Type} (truthy : V → Bool)
    (packages : Nat → LoaderState V → V × LoaderState V) (id : Nat)
    (s : LoaderState V) : V × LoaderState V :=
  if truthy (s.cache id) then (s.cache id, s)
  else
    let r := packages id s
    (r.1, { r.2 with cache := fun j => if j = id then r.1 else r.2.cache j })

/-- The Lua values the loader statements distinguish. -/
inductive LuaVal where
  | nil
  | boolean (b : Bool)
  | number (n : Nat)
  deriving DecidableEq

/-- Lua truthiness: nil and false are falsy, everything else truthy. -/
def luaTruthy : LuaVal → Bool
  | .nil => false
  | .boolean b => b
  | .number _ => true

/-- A factory modelling a module that exports through the
`package.loaded[...] = ...` idiom (rewritten to a cache write at its own
id) but has no trailing return: its body stores `7` in the cache, bumps
its run counter, and returns nil. -/
def exportNoReturnFactory : Nat → LoaderState LuaVal → LuaVal × LoaderState LuaVal :=
  fun i s => (.nil, { s with cache := fun j => if j = i then .number 7 else s.cache j,
                             runs := fun j => if j = i then s.runs i + 1 else s.runs j })

/-- A factory whose body returns the (truthy) number `i + 40` and bumps
its own run counter (its observable side effect). -/
def numberFactory : Nat → LoaderState LuaVal → LuaVal × LoaderState LuaVal :=
  fun i s => (.number (i + 40),
    { s with runs := fun j => if j = i then s.runs i + 1 else s.runs j })

/-- The loader state at program start: the cache table is empty (every
read yields nil) and nothing has run. -/
def emptyLuaState : LoaderState LuaVal := ⟨fun _ => .nil, fun _ => 0⟩

/-! ### The Lua AST fragment the hooks and the emitter operate on -/

mutual
/-- Lua expressions, mirroring the luaparse node kinds the program reads
and builds: identifiers (with the `isLocal` flag the program sets; nodes
the source builds without the flag carry `false`), numeric/string/vararg
literals, index and member expressions, calls, string-calls, function
expressions and table constructors. -/
inductive LExpr where
  | ident (name : String) (isLocal : Bool)
  | numberLit (value : Nat)
  | stringLit (value : String)
  | varargLit
  | index (base : LExpr) (idx : LExpr)
  | member (base : LExpr) (indexer : String) (id : LExpr)
  | call (base : LExpr) (args : List LExpr)
  | strCall (base : LExpr) (arg : LExpr)
  | func (params : List LExpr) (body : List LStmt)
  | table (fields : List LExpr)

/-- Lua statements used by the emitter and the assignment hook. -/
inductive LStmt where
  | localStmt (vars : List LExpr) (init : List LExpr)
  | assign (vars : List LExpr) (init : List LExpr)
  | ret (args : List LExpr)
  | ifStmt (clauses : List LClause)
  | callStmt (e : LExpr)

/-- An if-clause: condition plus body. -/
inductive LClause where
  | ifClause (cond : LExpr) (body : List LStmt)
end

/-- The luaparse `type` tag of an expression node (what the error message
of src/onelua.js line 181 prints for the offending argument). -/
def LExpr.typeName : LExpr → String
  | .ident _ _ => "Identifier"
  | .numberLit _ => "NumericLiteral"
  | .stringLit _ => "StringLiteral"
  | .varargLit => "VarargLiteral"
  | .index _ _ => "IndexExpression"
  | .member _ _ _ => "MemberExpression"
  | .call _ _ => "CallExpression"
  | .strCall _ _ => "StringCallExpression"
  | .func _ _ => "FunctionDeclaration"
  | .table _ => "TableConstructorExpression"

def requireName : String := "require"
def OLrequireName : String := "__OL__require"
def OLpackagesName : String := "__OL__packages"
def OLcachedName : String := "__OL__cached_packages"
def packageName : String := "package"
def loadedName : String := "loaded"
def idName : String := "id"

/-- Errors the hooks raise (they are thrown strings in the source;
`jsTypeError` models the JS `TypeError` of reading `.type` on an absent
first argument at line 181). -/
inductive RewriteError where
  | invalidRequireArgument (gotType : String)
  | moduleNotFound (spec : String)
  | invalidExportPosition
  | jsTypeError
  deriving DecidableEq

variable {π : Type}

/-- `new_astnode` (src/onelua.js lines 134-160): resolve the module name
via `get_required` (raising ModuleNotFound when nothing is found, lines
136-137), recursively build the target (abstracted into `resolveId`,
which may fail with a build error), and produce the replacement node - a
call to the local identifier `__OL__require` with the resolved id as its
single numeric-literal argument (lines 145-159). -/
def newAstnode (getRequired : String → Option π) (resolveId : π → Except RewriteError Nat)
    (module : String) : Except RewriteError LExpr :=
  match getRequired module with
  | none => .error (.moduleNotFound module)
  | some r =>
    match resolveId r with
    | .error e => .error e
    | .ok id => .ok (.call (.ident OLrequireName true) [.numberLit id])

/-- The `callExpression` hook (src/onelua.js lines 175-187): a call node
whose callee is the identifier `require` has its first argument
inspected; reading `.type` of an absent first argument crashes the JS
(`jsTypeError`); a first argument that is not a string literal raises
InvalidRequireArgument naming the argument's node type; otherwise the
whole node is replaced by `new_astnode`'s loader call.  Arguments past
the first are never read. -/
def callHook (getRequired : String → Option π) (resolveId : π → Except RewriteError Nat)
    (node : LExpr) : Except RewriteError LExpr :=
  match node with
  | .call (.ident nm _) args =>
    if nm = requireName then
      match args with
      | [] => .error .jsTypeError
      | a :: _ =>
        match a with
        | .stringLit s => newAstnode getRequired resolveId s
        | _ => .error (.invalidRequireArgument a.typeName)
    else .ok node
  | _ => .ok node

/-- The `stringCallExpression` hook (src/onelua.js lines 162-173):
`require "mod"` is rewritten through `new_astnode`; the argument of a
string-call node is always a string literal, and any other callee is left
untouched. -/
def stringCallHook (getRequired : String → Option π) (resolveId : π → Except RewriteError Nat)
    (node : LExpr) : Except RewriteError LExpr :=
  match node with
  | .strCall (.ident nm b) (.stringLit s) =>
    if nm = requireName then newAstnode getRequired resolveId s
    else .ok (.strCall (.ident nm b) (.stringLit s))
  | _ => .ok node

/-- Does the first assignment target match the reserved export-slot
pattern (src/onelua.js lines 220-223)?  The code checks that
`variables[0].base` is a MemberExpression whose base is named `package`
and whose identifier is named `loaded`, and that `variables[0].index` is
the vararg literal (whose `value` is always `"..."`); the member's
indexer is not inspected. -/
def matchesExportSlot : List LExpr → Bool
  | .index (.member (.ident bn _) _ (.ident fn _)) .varargLit :: _ =>
      bn == packageName && fn == loadedName
  | _ => false

/-- The `assignmentStatement` hook (src/onelua.js lines 190-238): when
the first target matches the export-slot pattern, the entry script raises
InvalidExportPosition (line 224); in any other module the entire target
list is replaced by the single write `__OL__cached_packages[<thisId>]`
(lines 228-234, the node built there carries no `isLocal` flag) while the
right-hand sides are kept.  The accompanying id-table update of line 235
is modelled in the builder (`processItems`). -/
def assignmentHook (isEntry : Bool) (thisModuleId : Nat) (node : LStmt) :
    Except RewriteError LStmt :=
  match node with
  | .assign vars init =>
    if matchesExportSlot vars then
      if isEntry then .error .invalidExportPosition
      else .ok (.assign [.index (.ident OLcachedName false) (.numberLit thisModuleId)] init)
    else .ok (.assign vars init)
  | _ => .ok node

/-! ### The module resolver (src/onelua.js lines 283-344) -/

def luaExt : String := ".lua"
def slashStr : String := "/"
def dotStr : String := "."
def pkgJsonName : String := "package.json"

/-- `module.replace(/\./g, "/")` of src/onelua.js line 292: every dot in
the specifier becomes a path separator. -/
def dotsToSlashes (s : String) : String :=
  ⟨s.data.map fun c => if c = '.' then '/' else c⟩

/-- Model of `path.dirname`: drop the final `/`-separated segment (a path
without separator yields `"."`, as in node). -/
def dirname (s : String) : String :=
  match s.data.reverse.dropWhile (fun c => c ≠ '/') with
  | [] => ⟨['.']⟩
  | _ :: rest => ⟨rest.reverse⟩

/-- Model of `path.join` of a base directory and a relative path. -/
def joinPath (a b : String) : String := a ++ slashStr ++ b

/-- The one manifest field the program reads: `onelua.main`
(src/onelua.js line 34). -/
structure PkgConfig where
  oneluaMain : Option String

/-- `LuaPackage` (src/onelua.js lines 7-44): package root directory, main
script path, and the main script's directory. -/
structure LuaPackage where
  packageDir : String
  mainScriptPath : String
  mainDir : String
  deriving DecidableEq

/-- `LuaScript` (src/onelua.js lines 46-68): canonical path, optional
owning package, and the path's directory. -/
structure LuaScript where
  path : String
  package : Option LuaPackage
  baseDir : String
  deriving DecidableEq

/-- `new LuaScript(path, pkg)`: `baseDir` is always `dirname(path)`. -/
def mkLuaScript (p : String) (pkg : Option LuaPackage) : LuaScript :=
  ⟨p, pkg, dirname p⟩

/-- `LuaPackage.fromPackageJson` (src/onelua.js lines 29-43) over an
abstract manifest store (`package.json` path to parsed contents) and
filesystem: the manifest must exist, must declare `onelua.main`, and the
declared main script (resolved against the manifest's directory, line 38)
must exist; otherwise no package results. -/
def fromPackageJson (manifests : String → Option PkgConfig) (fsExists : String → Bool)
    (package_json_path : String) : Option LuaPackage :=
  match manifests package_json_path with
  | none => none
  | some cfg =>
    match cfg.oneluaMain with
    | none => none
    | some mainRel =>
      let pkg_path := dirname package_json_path
      let pkg_script := joinPath pkg_path mainRel
      if fsExists pkg_script then some ⟨pkg_path, pkg_script, dirname pkg_script⟩ else none

/-- `OLProcessor.#getRequiredModule` (src/onelua.js lines 289-344) over an
abstract filesystem.  Dots in the specifier become path separators (line
292) and the fixed `.lua` extension is appended.  Strategies in order:
(1) relative to the requiring script's directory (lines 298-300);
(2) relative to the owning package's main-script directory when the
script has a package (lines 303-306); (3) relative to the entry script's
directory when it has none (lines 308-312); (4) the installed-dependency
lookup (lines 317-343), where `npmResolve` abstracts the external
`resolve` collaborator of line 321 (returning the resolved path and the
matched package directory, or nothing - every exception is swallowed by
the try/catch), followed by `fromPackageJson` on the found directory's
manifest. -/
def getRequiredModule (fsExists : String → Bool) (manifests : String → Option PkgConfig)
    (npmResolve : String → String → Option (String × String)) (entryDir : String)
    (base_script : LuaScript) (module : String) : Option LuaScript :=
  let m := dotsToSlashes module
  let p1 := joinPath base_script.baseDir (m ++ luaExt)
  if fsExists p1 then some (mkLuaScript p1 base_script.package)
  else
    let viaNpm : Option LuaScript :=
      match npmResolve m base_script.baseDir with
      | none => none
      | some (nodeModPath, pkgPath) =>
        match fromPackageJson manifests fsExists (joinPath pkgPath pkgJsonName) with
        | none => none
        | some pkg => some (mkLuaScript nodeModPath (some pkg))
    match base_script.package with
    | some pkg =>
      let p2 := joinPath pkg.mainDir (m ++ luaExt)
      if fsExists p2 then some (mkLuaScript p2 base_script.package) else viaNpm
    | none =>
      let p3 := joinPath entryDir (m ++ luaExt)
      if fsExists p3 then some (mkLuaScript p3 none) else viaNpm

/-! ### The bundle emitter (src/onelua.js lines 346-578) -/

/-- A parsed chunk: statements plus collected globals (the `comments`
field the source also carries is never read by the emitter logic the
properties concern and is not modelled). -/
structure LChunk where
  body : List LStmt
  globals : List String

/-- The chunk an absent registry entry would yield. -/
def emptyChunk : LChunk := ⟨[], []⟩

/-- Insert into an ascending list of ids. -/
def insertAsc (x : Nat) : List Nat → List Nat
  | [] => [x]
  | y :: ys => if x ≤ y then x :: y :: ys else y :: insertAsc x ys

/-- Ascending sort of the registry keys; models the iteration order of
`Object.keys(modulesAst)` at line 433 - JS objects enumerate integer-like
keys in ascending numeric order, not in insertion order. -/
def sortAsc : List Nat → List Nat
  | [] => []
  | y :: ys => insertAsc y (sortAsc ys)

/-- The forward declaration `local __OL__require` (lines 350-360). -/
def forwardDecl : LStmt := .localStmt [.ident OLrequireName true] []

/-- `local __OL__packages = {}` (lines 400-415). -/
def packagesDecl : LStmt := .localStmt [.ident OLpackagesName true] [.table []]

/-- `local __OL__cached_packages = {}` (lines 416-431). -/
def cachedDecl : LStmt := .localStmt [.ident OLcachedName true] [.table []]

/-- `createRequireDef` (lines 367-397): the registry entry
`__OL__packages[<id>] = function() <module body> end`, a zero-parameter
factory wrapping the module's rewritten body. -/
def createRequireDef (key : Nat) (body : List LStmt) : LStmt :=
  .assign [.index (.ident OLpackagesName true) (.numberLit key)] [.func [] body]

/-- The loader definition `__OL__require = function(id) ... end` (lines
439-569): if `__OL__cached_packages[id]` then return it; otherwise
`local package = __OL__packages[id]()`, store it in the cache, and return
it. -/
def OLrequireDef : LStmt :=
  .assign [.ident OLrequireName true]
    [.func [.ident idName true]
      [.ifStmt [.ifClause (.index (.ident OLcachedName true) (.ident idName true))
          [.ret [.index (.ident OLcachedName true) (.ident idName true)]]],
       .localStmt [.ident packageName true]
         [.call (.index (.ident OLpackagesName true) (.ident idName true)) []],
       .assign [.index (.ident OLcachedName true) (.ident idName true)]
         [.ident packageName true],
       .ret [.ident packageName true]]]

/-- Look up a module chunk by id (`modulesAst[key]`). -/
def chunkAt (modulesAst : List (Nat × LChunk)) (i : Nat) : LChunk :=
  (lookupKey i modulesAst).getD emptyChunk

/-- `OLProcessor.#createFinalAst` (lines 346-578): starting from the
chunk holding only the forward declaration, push the empty registry and
cache tables, then one registry entry per resolved id in ascending key
order (also extending the globals), then the loader definition, and
finally append the rewritten entry chunk's statements and globals. -/
def createFinalAst (modulesAst : List (Nat × LChunk)) (mainAst : LChunk) : LChunk :=
  let s0 : LChunk := ⟨[forwardDecl], []⟩
  let s1 : LChunk := { s0 with body := s0.body ++ [packagesDecl] }
  let s2 : LChunk := { s1 with body := s1.body ++ [cachedDecl] }
  let keys := sortAsc (modulesAst.map Prod.fst)
  let s3 := keys.foldl (fun acc i =>
    { acc with body := acc.body ++ [createRequireDef i (chunkAt modulesAst i).body],
               globals := acc.globals ++ (chunkAt modulesAst i).globals }) s2
  let s4 : LChunk := { s3 with body := s3.body ++ [OLrequireDef] }
  { s4 with body := s4.body ++ mainAst.body, globals := s4.globals ++ mainAst.globals }

/-! ### Concrete inputs for the hook and resolver statements -/

def specA : String := "a"
def varXName : String := "x"

/-- A resolver stub for hook-level statements: everything resolves to
script `7`. -/
def demoGetReq : String → Option Nat := fun _ => some 7

/-- A builder stub for hook-level statements: every script has id 7. -/
def demoResolveId : Nat → Except RewriteError Nat := fun r => .ok r

/-- The export-slot target `package.loaded[...]` as luaparse builds it. -/
def exportTarget : LExpr :=
  .index (.member (.ident packageName false) dotStr (.ident loadedName false)) .varargLit

def pkgMainDirDemo : String := "pkg/main"
def demoPkg : LuaPackage := ⟨"pkg", "pkg/main/init.lua", pkgMainDirDemo⟩
def baseDemo : LuaScript := ⟨"proj/a/current.lua", some demoPkg, "proj/a"⟩
def entryDirDemo : String := "proj"
def moduleDemo : String := "m"
def p2Demo : String := "pkg/main/m.lua"

/-- A filesystem in which only the package-main-relative candidate
exists. -/
def fsDemo : String → Bool := fun s => s == p2Demo

def manifestsDemo : String → Option PkgConfig := fun _ => none
def npmDemo : String → String → Option (String × String) := fun _ _ => none

/-! ### Association-list lemmas -/

theorem lookupKey_setKey_self {κ β : Type} [DecidableEq κ] (k : κ) (v : β) (l : List (κ × β)) :
    lookupKey k (setKey k v l) = some v := by
  induction l with
  | nil => simp [setKey, lookupKey]
  | cons hd tl ih =>
    obtain ⟨a, b⟩ := hd
    by_cases h : a = k
    · simp [setKey, lookupKey, h]
    · simp [setKey, lookupKey, h, ih]

theorem lookupKey_setKey_ne {κ β : Type} [DecidableEq κ] {k q : κ} (h : q ≠ k) (v : β)
    (l : List (κ × β)) : lookupKey q (setKey k v l) = lookupKey q l := by
  have hk : k ≠ q := fun hh => h hh.symm
  induction l with
  | nil => simp [setKey, lookupKey, hk]
  | cons hd tl ih =>
    obtain ⟨a, b⟩ := hd
    by_cases ha : a = k
    · subst ha
      simp [setKey, lookupKey, hk]
    · simp [setKey, lookupKey, ha, ih]

theorem lookupKey_setKey_cases {κ β : Type} [DecidableEq κ] (k q : κ) (v : β)
    (l : List (κ × β)) :
    lookupKey q (setKey k v l) = if q = k then some v else lookupKey q l := by
  by_cases h : q = k
  · subst h; simp [lookupKey_setKey_self]
  · simp [h, lookupKey_setKey_ne h]

theorem mem_keys_setKey {κ β : Type} [DecidableEq κ] (k q : κ) (v : β) (l : List (κ × β)) :
    q ∈ (setKey k v l).map Prod.fst ↔ q = k ∨ q ∈ l.map Prod.fst := by
  induction l with
  | nil => simp [setKey]
  | cons hd tl ih =>
    obtain ⟨a, b⟩ := hd
    by_cases h : a = k
    · subst h
      by_cases hq : q = a <;> simp [setKey, hq]
    · simp [setKey, h, ih]
      tauto

theorem keys_nodup_setKey {κ β : Type} [DecidableEq κ] (k : κ) (v : β) {l : List (κ × β)}
    (h : (l.map Prod.fst).Nodup) : ((setKey k v l).map Prod.fst).Nodup := by
  induction l with
  | nil => simp [setKey]
  | cons hd tl ih =>
    obtain ⟨a, b⟩ := hd
    simp only [List.map_cons, List.nodup_cons] at h
    by_cases ha : a = k
    · subst ha
      simpa [setKey] using h
    · simp only [setKey, if_neg ha, List.map_cons, List.nodup_cons]
      refine ⟨?_, ih h.2⟩
      rw [mem_keys_setKey]
      rintro (rfl | hmem)
      · exact ha rfl
      · exact h.1 hmem

theorem lookupKey_isSome_iff {κ β : Type} [DecidableEq κ] (q : κ) (l : List (κ × β)) :
    (lookupKey q l).isSome ↔ q ∈ l.map Prod.fst := by
  induction l with
  | nil => simp [lookupKey]
  | cons hd tl ih =>
    obtain ⟨a, b⟩ := hd
    by_cases h : a = q
    · subst h; simp [lookupKey]
    · have hq : q ≠ a := fun hh => h hh.symm
      simp [lookupKey, h, hq, ih]

theorem lookupKey_none_iff {κ β : Type} [DecidableEq κ] (q : κ) (l : List (κ × β)) :
    lookupKey q l = none ↔ q ∉ l.map Prod.fst := by
  rw [← lookupKey_isSome_iff]
  cases lookupKey q l <;> simp

/-- In a list whose keys are pairwise distinct, a key determines its value. -/
theorem keyVal_unique {κ β : Type} [DecidableEq κ] {l : List (κ × β)}
    (h : (l.map Prod.fst).Nodup) {k : κ} {v v' : β} (h1 : (k, v) ∈ l) (h2 : (k, v') ∈ l) :
    v = v' := by
  induction l with
  | nil => cases h1
  | cons hd tl ih =>
    simp only [List.map_cons, List.nodup_cons] at h
    rcases List.mem_cons.1 h1 with rfl | h1'
    · rcases List.mem_cons.1 h2 with heq | h2'
      · cases heq; rfl
      · exact absurd (List.mem_map.2 ⟨_, h2', rfl⟩) h.1
    · rcases List.mem_cons.1 h2 with rfl | h2'
      · exact absurd (List.mem_map.2 ⟨_, h1', rfl⟩) h.1
      · exact ih h.2 h1' h2'

/-! ### The builder invariant -/

/-- Loader calls recorded in a rewritten statement point into the
assignment trace (the rewritten call's id is the id assigned to its
resolved target). -/
def LCok (assigns : List (P × Nat)) : RStmt P → Prop
  | .loaderCall t j => (t, j) ∈ assigns
  | _ => True

/-- Well-formedness of a rewritten statement of the module with id
`thisId`: loader calls point into the assignment trace and cache writes
carry this module's own id. -/
def ROk (assigns : List (P × Nat)) (thisId : Nat) : RStmt P → Prop
  | .loaderCall t j => (t, j) ∈ assigns
  | .cacheWrite j => j = thisId
  | .plain => True

/-- The inductive invariant of the builder state, holding from the moment
the entry script is marked until the end of the build. -/
structure Inv (st : BuildState P) : Prop where
  ids_range : st.assigns.map Prod.snd = List.range st.assigns.length
  len_curr : st.assigns.length = st.curr + 1
  fst_nodup : (st.assigns.map Prod.fst).Nodup
  parses_eq : st.parses = st.assigns.map Prod.fst
  keys_iff : ∀ q, (lookupKey q st.modulesIds).isSome ↔ q ∈ st.assigns.map Prod.fst
  vals_ok : ∀ q v, lookupKey q st.modulesIds = some v →
    v = -1 ∨ (0 < v ∧ (q, v.toNat) ∈ st.assigns)
  ast_keys_nodup : (st.modulesAst.map Prod.fst).Nodup
  ast_ok : ∀ i body, lookupKey i st.modulesAst = some body → ∀ r ∈ body, LCok st.assigns r

/-- The assignment trace only ever grows at the end. -/
def Ext (st st' : BuildState P) : Prop := ∃ t, st'.assigns = st.assigns ++ t

/-- No in-progress (`-1`) id-table entry is created (surviving entries were
already in progress before). -/
def ProgShrink (st st' : BuildState P) : Prop :=
  ∀ q, lookupKey q st'.modulesIds = some (-1) → lookupKey q st.modulesIds = some (-1)

theorem Ext_refl (st : BuildState P) : Ext st st := ⟨[], by simp⟩

theorem Ext_trans {s1 s2 s3 : BuildState P} (h1 : Ext s1 s2) (h2 : Ext s2 s3) : Ext s1 s3 := by
  obtain ⟨t1, h1⟩ := h1
  obtain ⟨t2, h2⟩ := h2
  exact ⟨t1 ++ t2, by rw [h2, h1, List.append_assoc]⟩

theorem Ext.mem {s1 s2 : BuildState P} (h : Ext s1 s2) {a : P × Nat} (ha : a ∈ s1.assigns) :
    a ∈ s2.assigns := by
  obtain ⟨t, ht⟩ := h
  rw [ht]
  exact List.mem_append_left _ ha

theorem ProgShrink_refl (st : BuildState P) : ProgShrink st st := fun _ h => h

theorem ProgShrink_trans {s1 s2 s3 : BuildState P} (h1 : ProgShrink s1 s2)
    (h2 : ProgShrink s2 s3) : ProgShrink s1 s3 := fun q h => h1 q (h2 q h)

theorem LCok.mono {a1 a2 : List (P × Nat)} (h : ∃ t, a2 = a1 ++ t) {r : RStmt P}
    (hr : LCok a1 r) : LCok a2 r := by
  obtain ⟨t, rfl⟩ := h
  cases r with
  | loaderCall p j => exact List.mem_append_left _ hr
  | cacheWrite j => trivial
  | plain => trivial

theorem ROk.toLCok {a : List (P × Nat)} {i : Nat} {r : RStmt P} (h : ROk a i r) : LCok a r := by
  cases r <;> simpa [ROk, LCok] using h

/-! ### Invariant preservation -/

/-- Marking a fresh non-entry script as in progress and handing it the next
sequential id (src/onelua.js lines 121-124) preserves the invariant. -/
theorem Inv_mark {st : BuildState P} (p : P) (hInv : Inv st)
    (hfresh : lookupKey p st.modulesIds = none) :
    Inv { st with curr := st.curr + 1,
                  modulesIds := setKey p (-1 : Int) st.modulesIds,
                  assigns := st.assigns ++ [(p, st.curr + 1)],
                  parses := st.parses ++ [p] } := by
  have hp : p ∉ st.assigns.map Prod.fst := by
    rw [← hInv.keys_iff]; simp [hfresh]
  constructor
  · calc (st.assigns ++ [(p, st.curr + 1)]).map Prod.snd
        = st.assigns.map Prod.snd ++ [st.curr + 1] := by simp
      _ = List.range st.assigns.length ++ [st.assigns.length] := by
          rw [hInv.ids_range, hInv.len_curr]
      _ = List.range (st.assigns.length + 1) := (List.range_succ st.assigns.length).symm
      _ = List.range ((st.assigns ++ [(p, st.curr + 1)]).length) := by simp
  · simp [hInv.len_curr]
  · simp only [List.map_append, List.map_cons, List.map_nil]
    rw [List.nodup_append]
    exact ⟨hInv.fst_nodup, List.nodup_singleton _,
      fun x hx hxmem => by simp at hxmem; exact hp (hxmem ▸ hx)⟩
  · simp [hInv.parses_eq]
  · intro q
    rw [lookupKey_setKey_cases]
    by_cases hq : q = p
    · subst hq; simp
    · simp only [if_neg hq, hInv.keys_iff q, List.map_append, List.map_cons, List.map_nil,
        List.mem_append, List.mem_singleton]
      tauto
  · intro q v hqv
    rw [lookupKey_setKey_cases] at hqv
    by_cases hq : q = p
    · subst hq
      simp only [if_pos] at hqv
      simp at hqv
      exact Or.inl (by omega)
    · rw [if_neg hq] at hqv
      rcases hInv.vals_ok q v hqv with h1 | ⟨h2, h3⟩
      · exact Or.inl h1
      · exact Or.inr ⟨h2, List.mem_append_left _ h3⟩
  · exact hInv.ast_keys_nodup
  · intro i body hib r hr
    exact LCok.mono ⟨[(p, st.curr + 1)], rfl⟩ (hInv.ast_ok i body hib r hr)

/-- Behaviour of a successful hook pass over a script's statement list:
the invariant is preserved, the assignment trace only grows, no new
in-progress mark survives, and every rewritten statement is well formed
(loader calls carry the id the trace assigned to their target, cache
writes carry this module's id). -/
theorem processItems_spec
    (visit : P → BuildState P → Except (BuildError P S) (Nat × BuildState P))
    (R : P → S → Option P) (p : P) (isEntry : Bool) (thisId : Nat)
    (hvisit : ∀ t s id s', Inv s → visit t s = .ok (id, s') →
      Inv s' ∧ Ext s s' ∧ ProgShrink s s' ∧ (t, id) ∈ s'.assigns ∧ 0 < id) :
    ∀ items st body st', Inv st →
      (isEntry = false → 0 < thisId ∧ (p, thisId) ∈ st.assigns) →
      processItems visit R p isEntry thisId items st = .ok (body, st') →
      Inv st' ∧ Ext st st' ∧ ProgShrink st st' ∧ ∀ r ∈ body, ROk st'.assigns thisId r := by
  intro items
  induction items with
  | nil =>
    intro st body st' hInv hthis h
    simp only [processItems, Except.ok.injEq, Prod.mk.injEq] at h
    obtain ⟨h1, h2⟩ := h
    subst h1; subst h2
    exact ⟨hInv, Ext_refl st, ProgShrink_refl st, by simp⟩
  | cons item rest ih =>
    intro st body st' hInv hthis h
    cases item with
    | plain =>
      cases heq : processItems visit R p isEntry thisId rest st with
      | error e => simp [processItems, heq] at h
      | ok pr =>
        obtain ⟨b, s2⟩ := pr
        simp only [processItems, heq, Except.ok.injEq, Prod.mk.injEq] at h
        obtain ⟨h1, h2⟩ := h
        subst h1; subst h2
        obtain ⟨hI, hE, hPS, hB⟩ := ih st b s2 hInv hthis heq
        refine ⟨hI, hE, hPS, ?_⟩
        intro r hr
        rcases List.mem_cons.1 hr with rfl | hr'
        · trivial
        · exact hB r hr'
    | exportAssign =>
      cases isEntry with
      | true => simp [processItems] at h
      | false =>
        obtain ⟨hpos, hmem⟩ := hthis rfl
        have hpfst : p ∈ st.assigns.map Prod.fst := List.mem_map.2 ⟨_, hmem, rfl⟩
        cases heq : processItems visit R p false thisId rest
            { st with modulesIds := setKey p (thisId : Int) st.modulesIds } with
        | error e => simp [processItems, heq] at h
        | ok pr =>
          obtain ⟨b, s2⟩ := pr
          simp only [processItems, Bool.false_eq_true, if_false, heq, Except.ok.injEq,
            Prod.mk.injEq] at h
          obtain ⟨h1, h2⟩ := h
          subst h1; subst h2
          have hInv1 : Inv { st with modulesIds := setKey p (thisId : Int) st.modulesIds } := by
            constructor
            · exact hInv.ids_range
            · exact hInv.len_curr
            · exact hInv.fst_nodup
            · exact hInv.parses_eq
            · intro q
              rw [lookupKey_setKey_cases]
              by_cases hq : q = p
              · subst hq; simpa using hpfst
              · simp only [if_neg hq]
                exact hInv.keys_iff q
            · intro q v hqv
              rw [lookupKey_setKey_cases] at hqv
              by_cases hq : q = p
              · subst hq
                simp at hqv
                refine Or.inr ⟨by omega, ?_⟩
                have hvt : v.toNat = thisId := by omega
                rw [hvt]
                simpa using hmem
              · rw [if_neg hq] at hqv
                exact hInv.vals_ok q v hqv
            · exact hInv.ast_keys_nodup
            · exact hInv.ast_ok
          have hshr : ProgShrink st { st with modulesIds := setKey p (thisId : Int) st.modulesIds } := by
            intro q hq
            rw [lookupKey_setKey_cases] at hq
            by_cases hqp : q = p
            · rw [if_pos hqp] at hq
              simp at hq
            · rwa [if_neg hqp] at hq
          obtain ⟨hI, hE, hPS, hB⟩ := ih _ b s2 hInv1
            (fun _ => ⟨hpos, hmem⟩) heq
          refine ⟨hI, hE, ProgShrink_trans hshr hPS, ?_⟩
          intro r hr
          rcases List.mem_cons.1 hr with rfl | hr'
          · rfl
          · exact hB r hr'
    | require spec =>
      cases hR : R p spec with
      | none => simp [processItems, hR] at h
      | some target =>
        cases hV : visit target st with
        | error e => simp [processItems, hR, hV] at h
        | ok pr =>
          obtain ⟨id, s2⟩ := pr
          obtain ⟨hI2, hE2, hPS2, hmem2, hpos2⟩ := hvisit target st id s2 hInv hV
          cases heq : processItems visit R p isEntry thisId rest s2 with
          | error e => simp [processItems, hR, hV, heq] at h
          | ok pr2 =>
            obtain ⟨b, s3⟩ := pr2
            simp only [processItems, hR, hV, heq, Except.ok.injEq, Prod.mk.injEq] at h
            obtain ⟨h1, h2⟩ := h
            subst h1; subst h2
            have hthis2 : isEntry = false → 0 < thisId ∧ (p, thisId) ∈ s2.assigns :=
              fun hf => ⟨(hthis hf).1, hE2.mem (hthis hf).2⟩
            obtain ⟨hI3, hE3, hPS3, hB⟩ := ih s2 b s3 hI2 hthis2 heq
            refine ⟨hI3, Ext_trans hE2 hE3, ProgShrink_trans hPS2 hPS3, ?_⟩
            intro r hr
            rcases List.mem_cons.1 hr with rfl | hr'
            · exact hE3.mem hmem2
            · exact hB r hr'

/-- Behaviour of a successful `recurseCore` run on a fresh non-entry
script: the script got the next sequential id before its children were
processed (its assignment is recorded right after the previous trace, and
everything assigned during the run comes after it), the id table maps the
script to that id afterwards, the rewritten body is stored under the id,
and no new in-progress mark survives. -/
theorem recurseCore_spec
    (visit : P → BuildState P → Except (BuildError P S) (Nat × BuildState P))
    (R : P → S → Option P) (C : P → List (SrcItem S)) (p : P) (st : BuildState P)
    (id : Nat) (st' : BuildState P)
    (hvisit : ∀ t s id s', Inv s → visit t s = .ok (id, s') →
      Inv s' ∧ Ext s s' ∧ ProgShrink s s' ∧ (t, id) ∈ s'.assigns ∧ 0 < id)
    (hInv : Inv st) (hfresh : lookupKey p st.modulesIds = none)
    (h : recurseCore visit R C p false st = .ok (id, st')) :
    Inv st' ∧ Ext st st' ∧ ProgShrink st st' ∧ (p, id) ∈ st'.assigns ∧ 0 < id ∧
      id = st.curr + 1 ∧ lookupKey p st'.modulesIds = some (id : Int) ∧
      ∃ body rest, st'.assigns = st.assigns ++ (p, id) :: rest ∧
        lookupKey id st'.modulesAst = some body ∧ ∀ r ∈ body, ROk st'.assigns id r := by
  cases hpi : processItems visit R p false (st.curr + 1) (C p)
      { st with curr := st.curr + 1,
                modulesIds := setKey p (-1 : Int) st.modulesIds,
                assigns := st.assigns ++ [(p, st.curr + 1)],
                parses := st.parses ++ [p] } with
  | error e => simp [recurseCore, hpi] at h
  | ok pr =>
    obtain ⟨body, st2⟩ := pr
    simp only [recurseCore, Bool.false_eq_true, if_false, hpi, Except.ok.injEq,
      Prod.mk.injEq] at h
    obtain ⟨h1, h2⟩ := h
    subst h1; subst h2
    have hInv1 := Inv_mark p hInv hfresh
    have hmem1 : (p, st.curr + 1) ∈ (st.assigns ++ [(p, st.curr + 1)]) := by simp
    obtain ⟨hI2, hE2, hPS2, hB⟩ := processItems_spec visit R p false (st.curr + 1) hvisit
      (C p) _ body st2 hInv1 (fun _ => ⟨Nat.succ_pos _, hmem1⟩) hpi
    obtain ⟨tl, htl⟩ := hE2
    have hassigns2 : st2.assigns = st.assigns ++ (p, st.curr + 1) :: tl := by
      rw [htl]; simp
    have hmem2 : (p, st.curr + 1) ∈ st2.assigns := by
      rw [hassigns2]; simp
    refine ⟨?_, ?_, ?_, hmem2, Nat.succ_pos _, rfl, ?_, ?_⟩
    · -- invariant for the completed state
      constructor
      · exact hI2.ids_range
      · exact hI2.len_curr
      · exact hI2.fst_nodup
      · exact hI2.parses_eq
      · intro q
        rw [lookupKey_setKey_cases]
        by_cases hq : q = p
        · subst hq
          simp
          exact ⟨st.curr + 1, hmem2⟩
        · rw [if_neg hq]
          exact hI2.keys_iff q
      · intro q v hqv
        rw [lookupKey_setKey_cases] at hqv
        by_cases hq : q = p
        · subst hq
          simp at hqv
          refine Or.inr ⟨by omega, ?_⟩
          have hvt : v.toNat = st.curr + 1 := by omega
          rw [hvt]
          exact hmem2
        · rw [if_neg hq] at hqv
          exact hI2.vals_ok q v hqv
      · exact keys_nodup_setKey _ _ hI2.ast_keys_nodup
      · intro i bd hib r hr
        rw [lookupKey_setKey_cases] at hib
        by_cases hi : i = st.curr + 1
        · rw [if_pos hi, Option.some.injEq] at hib
          subst hib
          exact (hB r hr).toLCok
        · rw [if_neg hi] at hib
          exact hI2.ast_ok i bd hib r hr
    · exact ⟨(p, st.curr + 1) :: tl, hassigns2⟩
    · -- no new in-progress mark survives
      intro q hq
      simp only at hq
      rw [lookupKey_setKey_cases] at hq
      by_cases hq' : q = p
      · rw [if_pos hq'] at hq
        simp only [Option.some.injEq] at hq
        exact absurd hq (by omega)
      · rw [if_neg hq'] at hq
        have hq1 := hPS2 q hq
        simp only at hq1
        rw [lookupKey_setKey_cases, if_neg hq'] at hq1
        exact hq1
    · simpa using lookupKey_setKey_self p ((st.curr + 1 : Nat) : Int) st2.modulesIds
    · refine ⟨body, tl, hassigns2, ?_, hB⟩
      simpa using lookupKey_setKey_self (st.curr + 1) body st2.modulesAst

/-- Main correctness of a successful builder call on a non-entry script
(the recursive case: `prev` is always `some q`).  On success the invariant
is preserved, the assignment trace only grows, no new in-progress mark
survives, and the returned id is positive and recorded for `p`. -/
theorem recurseResolve_spec (R : P → S → Option P) (C : P → List (SrcItem S)) :
    ∀ fuel p q st id st', Inv st →
      recurseResolve R C fuel p (some q) st = .ok (id, st') →
      Inv st' ∧ Ext st st' ∧ ProgShrink st st' ∧ (p, id) ∈ st'.assigns ∧ 0 < id := by
  intro fuel
  induction fuel with
  | zero =>
    intro p q st id st' _ h
    simp [recurseResolve] at h
  | succ f ih =>
    intro p q st id st' hInv h
    cases hl : lookupKey p st.modulesIds with
    | some v =>
      simp only [recurseResolve, hl] at h
      rcases hInv.vals_ok p v hl with rfl | ⟨hv, hmemv⟩
      · simp at h
      · rw [if_pos hv] at h
        simp only [Except.ok.injEq, Prod.mk.injEq] at h
        obtain ⟨h1, h2⟩ := h
        subst h1; subst h2
        exact ⟨hInv, Ext_refl st, ProgShrink_refl st, hmemv, by omega⟩
    | none =>
      simp only [recurseResolve, hl, Option.isNone_some] at h
      obtain ⟨hI, hE, hPS, hmem, hpos, _⟩ :=
        recurseCore_spec _ R C p st id st' (fun t s i s' hs hv => ih t p s i s' hs hv)
          hInv hl h
      exact ⟨hI, hE, hPS, hmem, hpos⟩

/-! ### The entry-level run -/

/-- The invariant holds right after the entry script is marked. -/
theorem Inv_entryState (entry : P) : Inv (entryState entry) := by
  constructor
  · rfl
  · rfl
  · simp [entryState]
  · rfl
  · intro q
    by_cases hq : q = entry
    · subst hq; simp [entryState, lookupKey]
    · have h' : entry ≠ q := fun hh => hq hh.symm
      simp [entryState, lookupKey, h', hq]
  · intro q v hqv
    by_cases hq : entry = q
    · subst hq
      simp [entryState, lookupKey] at hqv
      exact Or.inl hqv.symm
    · simp [entryState, lookupKey, hq] at hqv
  · simp [entryState]
  · intro i body hib
    simp [entryState, lookupKey] at hib

/-- Unfolding one step of a build: the entry is fresh in the empty state,
is marked with id 0, and its contents are processed by the hooks; on
success the rewritten entry body becomes `mainAst`. -/
theorem recurseResolve_entry_run (R : P → S → Option P) (C : P → List (SrcItem S))
    (entry : P) (f : Nat) :
    recurseResolve R C (f + 1) entry none initState =
      (match processItems (fun t s => recurseResolve R C f t (some entry) s) R entry true 0
          (C entry) (entryState entry) with
       | .error e => .error e
       | .ok (body, st2) => .ok (0, { st2 with mainAst := some body })) := rfl

/-- Everything a successful build guarantees about its final state: the
invariant holds, the trace starts with the entry carrying id 0, and the
rewritten entry body is well formed. -/
theorem processBuild_ok_spec (R : P → S → Option P) (C : P → List (SrcItem S)) (entry : P)
    (fuel : Nat) (st : BuildState P) (h : processBuild R C entry fuel = .ok st) :
    Inv st ∧ (∃ tl, st.assigns = (entry, 0) :: tl) ∧
      ∀ r ∈ st.mainAst.getD [], ROk st.assigns 0 r := by
  cases fuel with
  | zero => simp [processBuild, recurseResolve, Except.map] at h
  | succ f =>
    rw [processBuild, recurseResolve_entry_run] at h
    cases hpi : processItems (fun t s => recurseResolve R C f t (some entry) s) R entry true 0
        (C entry) (entryState entry) with
    | error e => rw [hpi] at h; simp [Except.map] at h
    | ok pr =>
      obtain ⟨body, st2⟩ := pr
      rw [hpi] at h
      simp only [Except.map, Except.ok.injEq] at h
      subst h
      obtain ⟨hI2, hE2, _, hB⟩ := processItems_spec
        (fun t s => recurseResolve R C f t (some entry) s) R entry true 0
        (fun t s i s' hs hv => recurseResolve_spec R C f t entry s i s' hs hv)
        (C entry) (entryState entry) body st2 (Inv_entryState entry)
        (fun hh => by cases hh) hpi
      refine ⟨⟨hI2.ids_range, hI2.len_curr, hI2.fst_nodup, hI2.parses_eq, hI2.keys_iff,
        hI2.vals_ok, hI2.ast_keys_nodup, hI2.ast_ok⟩, ?_, ?_⟩
      · obtain ⟨tl, htl⟩ := hE2
        exact ⟨tl, by simpa [entryState] using htl⟩
      · simpa using hB

/-- Under the invariant the ids along the trace are strictly increasing in
chronological (first-encounter) order. -/
theorem assigns_pairwise {st : BuildState P} (hInv : Inv st) :
    st.assigns.Pairwise (fun a b => a.2 < b.2) := by
  have h := List.pairwise_lt_range st.assigns.length
  rw [← hInv.ids_range] at h
  exact (List.pairwise_map).1 h

/-! ### Claims about id assignment (C2) -/

/-- C2: in every successful build, the entry script's module id is 0,
every other module's id is a positive integer, ids are assigned strictly
increasing in first-encounter (pre-order) order of the depth-first
traversal (the ghost trace `assigns` lists the assignments chronologically
and carries exactly the ids `0, 1, 2, ...` in order), no two module
records share an id, and each module's id is assigned before its children
are visited: a fresh module visited from state `st0` gets id
`st0.curr + 1`, recorded in the trace immediately after everything
previously assigned, and every module first assigned during its processing
(in particular every child first encountered through it) gets a strictly
larger id. -/
theorem claim_C2 (R : P → S → Option P) (C : P → List (SrcItem S)) (entry : P)
    (fuel : Nat) (st : BuildState P) (h : processBuild R C entry fuel = .ok st) :
    st.assigns.head? = some (entry, 0) ∧
    st.assigns.map Prod.snd = List.range st.assigns.length ∧
    (∀ pr ∈ st.assigns.tail, 0 < pr.2) ∧
    (st.assigns.map Prod.snd).Nodup ∧
    (∀ p q st0 f id st1, Inv st0 → lookupKey p st0.modulesIds = none →
      recurseResolve R C (f + 1) p (some q) st0 = .ok (id, st1) →
      id = st0.curr + 1 ∧ ∃ rest, st1.assigns = st0.assigns ++ (p, id) :: rest ∧
        ∀ pr ∈ rest, id < pr.2) := by
  obtain ⟨hI, ⟨tl, htl⟩, _⟩ := processBuild_ok_spec R C entry fuel st h
  refine ⟨?_, hI.ids_range, ?_, ?_, ?_⟩
  · rw [htl]; rfl
  · intro pr hpr
    have hpw := assigns_pairwise hI
    rw [htl] at hpw hpr
    simp only [List.tail_cons] at hpr
    exact List.rel_of_pairwise_cons hpw hpr
  · rw [hI.ids_range]; exact List.nodup_range _
  · intro p q st0 f id st1 hInv0 hfresh hrec
    simp only [recurseResolve, hfresh, Option.isNone_some] at hrec
    obtain ⟨hI1, _, _, _, _, hid, _, ⟨body, rest, hsplit, _, _⟩⟩ :=
      recurseCore_spec _ R C p st0 id st1
        (fun t s i s' hs hv => recurseResolve_spec R C f t p s i s' hs hv) hInv0 hfresh hrec
    refine ⟨hid, rest, hsplit, ?_⟩
    intro pr hpr
    have hpw := assigns_pairwise hI1
    rw [hsplit] at hpw
    have hpw2 := hpw.sublist (List.sublist_append_right _ _)
    exact List.rel_of_pairwise_cons hpw2 hpr

/-- Witness for C2: the concrete diamond build succeeds and exhibits the
stated head and id sequence. -/
theorem claim_C2_witness :
    (getOk (processBuild Rid Cdiamond 0 6) initState).assigns.head? = some (0, 0) ∧
    (getOk (processBuild Rid Cdiamond 0 6) initState).assigns.map Prod.snd =
      List.range (getOk (processBuild Rid Cdiamond 0 6) initState).assigns.length := by
  have h : processBuild Rid Cdiamond 0 6 = .ok (getOk (processBuild Rid Cdiamond 0 6) initState) :=
    rfl
  obtain ⟨h1, h2, _, _, _⟩ := claim_C2 Rid Cdiamond 0 6 _ h
  exact ⟨h1, h2⟩

/-! ### Claims about the module lifecycle and cycles (C3) -/

/-- Reaching a script whose id-table entry is `-1` (in progress) raises
`CircularDependency` naming the script and its requirer (src/onelua.js
lines 111-114). -/
theorem recurseResolve_inProgress (R : P → S → Option P) (C : P → List (SrcItem S))
    (f : Nat) (p q : P) (st : BuildState P) (hl : lookupKey p st.modulesIds = some (-1)) :
    recurseResolve R C (f + 1) p (some q) st = .error (.circularDependency p q) := by
  simp [recurseResolve, hl]

/-- A fresh script is handed to `recurseCore` (the marking and parsing
phase) with the recursive builder as the child visitor. -/
theorem recurseResolve_fresh_eq (R : P → S → Option P) (C : P → List (SrcItem S))
    (f : Nat) (p : P) (prev : Option P) (st : BuildState P)
    (hfresh : lookupKey p st.modulesIds = none) :
    recurseResolve R C (f + 1) p prev st =
      recurseCore (fun t s => recurseResolve R C f t (some p) s) R C p prev.isNone st := by
  simp only [recurseResolve, hfresh]

/-- C3 counterexample: the claim says every cycle `A requires B requires
A` aborts with `CircularDependency` before any output, but the concrete
cyclic graph `Ccycle` (module 1 exports first and then requires 2, module
2 requires 1 back) builds successfully: the export assignment at line 235
of src/onelua.js marks module 1 resolved in the middle of its parse, so
the revisit of 1 from 2 finds a positive id instead of the in-progress
mark. -/
theorem claim_C3_counterexample :
    (processBuild Rid Ccycle 0 9).isOk = true ∧
    (getOk (processBuild Rid Ccycle 0 9) initState).assigns = [(0, 0), (1, 1), (2, 2)] := by
  constructor <;> rfl

/-- C3 as amended: (1) a record is created in progress on first reference
and a script reached while in progress raises `CircularDependency` naming
both endpoints; (2) hence a module whose first statement requires itself
aborts (its own in-progress mark, created before its children are visited,
is seen by the nested visit); (3) a record transitions to its resolved
(positive) id once its parse completes; (4) an export assignment
transitions the record to its resolved id already in the middle of the
parse; and (5) a revisit of a record carrying a positive id returns that
id without error - which is why, when the *first-entered* module of a
cycle performs its export assignment before its require of the next cycle
member, the revisit that closes the cycle sees a resolved id instead of
the in-progress mark and no `CircularDependency` is raised (the
counterexample's build succeeds); any cycle whose revisited module is
still in progress - in particular whenever only later-entered members
export early - still aborts. -/
theorem claim_C3_amended (R : P → S → Option P) (C : P → List (SrcItem S)) :
    (∀ f p q st, lookupKey p st.modulesIds = some (-1) →
      recurseResolve R C (f + 1) p (some q) st = .error (.circularDependency p q)) ∧
    (∀ g p q st spec rest, lookupKey p st.modulesIds = none →
      C p = .require spec :: rest → R p spec = some p →
      recurseResolve R C (g + 2) p (some q) st = .error (.circularDependency p p)) ∧
    (∀ f p q st id st', Inv st → lookupKey p st.modulesIds = none →
      recurseResolve R C (f + 1) p (some q) st = .ok (id, st') →
      lookupKey p st'.modulesIds = some (id : Int) ∧ 0 < id) ∧
    (∀ visit p i rest st, processItems visit R p false i (.exportAssign :: rest) st =
      (match processItems visit R p false i rest
          { st with modulesIds := setKey p (i : Int) st.modulesIds } with
       | .error e => .error e
       | .ok (body, st') => .ok (.cacheWrite i :: body, st'))) ∧
    (∀ f p q st (i : Nat), lookupKey p st.modulesIds = some ((i : Nat) : Int) → 0 < i →
      recurseResolve R C (f + 1) p (some q) st = .ok (i, st)) := by
  refine ⟨fun f p q st hl => recurseResolve_inProgress R C f p q st hl, ?_, ?_, ?_, ?_⟩
  · intro g p q st spec rest hfresh hC hR
    have hmark : lookupKey p (setKey p (-1 : Int) st.modulesIds) = some (-1) :=
      lookupKey_setKey_self p (-1 : Int) st.modulesIds
    have hchild := recurseResolve_inProgress R C g p p
      { st with curr := st.curr + 1,
                modulesIds := setKey p (-1 : Int) st.modulesIds,
                assigns := st.assigns ++ [(p, st.curr + 1)],
                parses := st.parses ++ [p] } hmark
    rw [show g + 2 = g + 1 + 1 from rfl,
      recurseResolve_fresh_eq R C (g + 1) p (some q) st hfresh]
    have hcore : recurseCore (fun t s => recurseResolve R C (g + 1) t (some p) s) R C p
        (some q).isNone st =
        (match processItems (fun t s => recurseResolve R C (g + 1) t (some p) s) R p false
            (st.curr + 1) (C p)
            { st with curr := st.curr + 1,
                      modulesIds := setKey p (-1 : Int) st.modulesIds,
                      assigns := st.assigns ++ [(p, st.curr + 1)],
                      parses := st.parses ++ [p] } with
         | .error e => .error e
         | .ok (body, st2) =>
            .ok (st.curr + 1, { st2 with
              modulesIds := setKey p ((st.curr + 1 : Nat) : Int) st2.modulesIds,
              modulesAst := setKey (st.curr + 1) body st2.modulesAst })) := rfl
    rw [hcore, hC]
    simp only [processItems, hR, hchild]
  · intro f p q st id st' hInv hfresh hrec
    simp only [recurseResolve, hfresh, Option.isNone_some] at hrec
    obtain ⟨_, _, _, _, hpos, _, hlook, _⟩ :=
      recurseCore_spec _ R C p st id st'
        (fun t s i s' hs hv => recurseResolve_spec R C f t p s i s' hs hv) hInv hfresh hrec
    exact ⟨hlook, hpos⟩
  · intro visit p i rest st
    rfl
  · intro f p q st i hl hi
    have hpos : (0 : Int) < ((i : Nat) : Int) := by omega
    simp [recurseResolve, hl, hpos]

/-- Witness for the amended C3: a bare two-module cycle (no early export)
aborts with `CircularDependency`; reaching the in-progress script `1`
from `0` errors as stated; and an early export by the *second*-entered
cycle member does not avert the abort (module 1 is still in progress when
module 2 requires it back). -/
theorem claim_C3_witness :
    recurseResolve Rid CcycleBare 3 1 (some 0) stInProg =
      .error (.circularDependency 1 0) ∧
    processBuild Rid CcycleBare 0 9 = .error (.circularDependency 1 2) ∧
    processBuild Rid CcycleExportSecond 0 9 = .error (.circularDependency 1 2) := by
  refine ⟨(claim_C3_amended Rid CcycleBare).1 2 1 0 stInProg rfl, ?_, ?_⟩
  · rfl
  · rfl

/-! ### Build success on acyclic graphs (C5) -/

/-- Successful pass over a statement list, given that every require in it
resolves to a script of rank below the bound, every in-progress mark sits
at or above the bound, and (for the entry) there is no export
assignment. -/
theorem processItems_succeeds
    (visit : P → BuildState P → Except (BuildError P S) (Nat × BuildState P))
    (R : P → S → Option P) (rank : P → Nat) (p : P) (isEntry : Bool) (thisId : Nat) (b : Nat)
    (hvspec : ∀ t s id s', Inv s → visit t s = .ok (id, s') →
      Inv s' ∧ Ext s s' ∧ ProgShrink s s' ∧ (t, id) ∈ s'.assigns ∧ 0 < id)
    (hvsucc : ∀ t s, rank t < b → Inv s → StackBound s rank (rank t + 1) →
      ∃ id s', visit t s = .ok (id, s')) :
    ∀ items st, Inv st → StackBound st rank b →
      (isEntry = false → 0 < thisId ∧ (p, thisId) ∈ st.assigns) →
      (∀ spec, SrcItem.require spec ∈ items → ∃ t, R p spec = some t ∧ rank t < b) →
      (isEntry = true → SrcItem.exportAssign ∉ items) →
      ∃ body st', processItems visit R p isEntry thisId items st = .ok (body, st') := by
  intro items
  induction items with
  | nil => exact fun st _ _ _ _ _ => ⟨[], st, rfl⟩
  | cons item rest ih =>
    intro st hInv hSB hthis hitems hexp
    cases item with
    | plain =>
      obtain ⟨body, st', heq⟩ := ih st hInv hSB hthis
        (fun spec hs => hitems spec (List.mem_cons_of_mem _ hs))
        (fun he => fun hmem => hexp he (List.mem_cons_of_mem _ hmem))
      exact ⟨.plain :: body, st', by simp [processItems, heq]⟩
    | exportAssign =>
      cases isEntry with
      | true => exact absurd (List.mem_cons_self _ _) (hexp rfl)
      | false =>
        obtain ⟨hpos, hmem⟩ := hthis rfl
        have hpfst : p ∈ st.assigns.map Prod.fst := List.mem_map.2 ⟨_, hmem, rfl⟩
        have hInv1 : Inv { st with modulesIds := setKey p (thisId : Int) st.modulesIds } := by
          constructor
          · exact hInv.ids_range
          · exact hInv.len_curr
          · exact hInv.fst_nodup
          · exact hInv.parses_eq
          · intro q
            rw [lookupKey_setKey_cases]
            by_cases hq : q = p
            · subst hq; simpa using hpfst
            · rw [if_neg hq]; exact hInv.keys_iff q
          · intro q v hqv
            rw [lookupKey_setKey_cases] at hqv
            by_cases hq : q = p
            · subst hq
              simp at hqv
              refine Or.inr ⟨by omega, ?_⟩
              have hvt : v.toNat = thisId := by omega
              rw [hvt]; simpa using hmem
            · rw [if_neg hq] at hqv
              exact hInv.vals_ok q v hqv
          · exact hInv.ast_keys_nodup
          · exact hInv.ast_ok
        have hSB1 : StackBound { st with modulesIds := setKey p (thisId : Int) st.modulesIds }
            rank b := by
          intro q hq
          simp only at hq
          rw [lookupKey_setKey_cases] at hq
          by_cases hqp : q = p
          · rw [if_pos hqp] at hq
            simp at hq
          · rw [if_neg hqp] at hq
            exact hSB q hq
        obtain ⟨body, st', heq⟩ := ih _ hInv1 hSB1 (fun _ => ⟨hpos, hmem⟩)
          (fun spec hs => hitems spec (List.mem_cons_of_mem _ hs))
          (fun he => by cases he)
        exact ⟨.cacheWrite thisId :: body, st', by simp [processItems, heq]⟩
    | require spec =>
      obtain ⟨t, hRt, hrt⟩ := hitems spec (List.mem_cons_self _ _)
      have hSBt : StackBound st rank (rank t + 1) := fun q hq => by
        have := hSB q hq; omega
      obtain ⟨id, s', hv⟩ := hvsucc t st hrt hInv hSBt
      obtain ⟨hI', hE', hPS', _, _⟩ := hvspec t st id s' hInv hv
      have hSB' : StackBound s' rank b := fun q hq => hSB q (hPS' q hq)
      have hthis' : isEntry = false → 0 < thisId ∧ (p, thisId) ∈ s'.assigns :=
        fun hf => ⟨(hthis hf).1, hE'.mem (hthis hf).2⟩
      obtain ⟨body, st', heq⟩ := ih s' hI' hSB' hthis'
        (fun sp hs => hitems sp (List.mem_cons_of_mem _ hs))
        (fun he hmem => hexp he (List.mem_cons_of_mem _ hmem))
      exact ⟨.loaderCall t id :: body, st', by simp [processItems, hRt, hv, heq]⟩

/-- A non-entry visit succeeds whenever the graph is ranked (every require
resolves to a strictly smaller rank), the fuel exceeds the script's rank,
and every in-progress mark sits strictly above the script's rank. -/
theorem recurseResolve_succeeds (R : P → S → Option P) (C : P → List (SrcItem S))
    (rank : P → Nat)
    (hR : ∀ x spec, SrcItem.require spec ∈ C x → ∃ t, R x spec = some t ∧ rank t < rank x) :
    ∀ fuel p q st, rank p < fuel → Inv st → StackBound st rank (rank p + 1) →
      ∃ id st', recurseResolve R C fuel p (some q) st = .ok (id, st') := by
  intro fuel
  induction fuel with
  | zero => intro p q st h; omega
  | succ f ih =>
    intro p q st hrank hInv hSB
    cases hl : lookupKey p st.modulesIds with
    | some v =>
      rcases hInv.vals_ok p v hl with rfl | ⟨hv, hmemv⟩
      · exact absurd (hSB p hl) (by omega)
      · exact ⟨v.toNat, st, by simp [recurseResolve, hl, hv]⟩
    | none =>
      have hInv1 := Inv_mark p hInv hl
      have hSB1 : StackBound
          { st with curr := st.curr + 1,
                    modulesIds := setKey p (-1 : Int) st.modulesIds,
                    assigns := st.assigns ++ [(p, st.curr + 1)],
                    parses := st.parses ++ [p] } rank (rank p) := by
        intro x hx
        simp only at hx
        rw [lookupKey_setKey_cases] at hx
        by_cases hxp : x = p
        · subst hxp; omega
        · rw [if_neg hxp] at hx
          have := hSB x hx; omega
      obtain ⟨body, st2, hpi⟩ := processItems_succeeds
        (fun t s => recurseResolve R C f t (some p) s) R rank p false (st.curr + 1) (rank p)
        (fun t s i s' hs hv => recurseResolve_spec R C f t p s i s' hs hv)
        (fun t s hrt hs hsb => ih t p s (by omega) hs hsb)
        (C p) _ hInv1 hSB1
        (fun _ => ⟨Nat.succ_pos _, by simp⟩)
        (fun spec hs => by
          obtain ⟨t, h1, h2⟩ := hR p spec hs
          exact ⟨t, h1, h2⟩)
        (fun he => by cases he)
      refine ⟨st.curr + 1,
        { st2 with modulesIds := setKey p ((st.curr + 1 : Nat) : Int) st2.modulesIds,
                   modulesAst := setKey (st.curr + 1) body st2.modulesAst }, ?_⟩
      rw [recurseResolve_fresh_eq R C f p (some q) st hl]
      have hcore : recurseCore (fun t s => recurseResolve R C f t (some p) s) R C p
          (some q).isNone st =
          (match processItems (fun t s => recurseResolve R C f t (some p) s) R p false
              (st.curr + 1) (C p)
              { st with curr := st.curr + 1,
                        modulesIds := setKey p (-1 : Int) st.modulesIds,
                        assigns := st.assigns ++ [(p, st.curr + 1)],
                        parses := st.parses ++ [p] } with
           | .error e => .error e
           | .ok (body, st2) =>
              .ok (st.curr + 1, { st2 with
                modulesIds := setKey p ((st.curr + 1 : Nat) : Int) st2.modulesIds,
                modulesAst := setKey (st.curr + 1) body st2.modulesAst })) := rfl
      rw [hcore, hpi]

/-- C5 counterexample: the claim says every build of an acyclic dependency
graph succeeds, but the concrete build whose entry consists of a single
export assignment has an empty (hence acyclic) dependency graph and aborts
with `InvalidExportPosition` (src/onelua.js line 224). -/
theorem claim_C5_counterexample :
    processBuild Rid CentryExport 0 2 = .error (.invalidExportPosition 0) := rfl

/-- C5 as amended: for every build of an acyclic dependency graph (given
by a rank function strictly decreasing along resolved requires) in which
every require specifier resolves and the entry script contains no export
assignment, the build succeeds once the fuel exceeds the entry's rank;
each distinct file is parsed exactly once even when imported from many
sites (the ghost parse trace has no duplicates and lists exactly the
scripts that received ids); and any two import sites whose specifiers
resolve to the same canonical path are rewritten into loader calls
carrying the identical integer id (every loader call in a module body or
in the entry body carries the id the trace assigned to its target, and
the trace assigns one id per path). -/
theorem claim_C5_amended (R : P → S → Option P) (C : P → List (SrcItem S)) (rank : P → Nat)
    (entry : P) (fuel : Nat)
    (hR : ∀ x spec, SrcItem.require spec ∈ C x → ∃ t, R x spec = some t ∧ rank t < rank x)
    (hE : SrcItem.exportAssign ∉ C entry) (hfuel : rank entry < fuel) :
    ∃ st, processBuild R C entry fuel = .ok st ∧
      st.parses.Nodup ∧
      st.parses = st.assigns.map Prod.fst ∧
      (∀ i body, lookupKey i st.modulesAst = some body → ∀ r ∈ body, LCok st.assigns r) ∧
      (∀ r ∈ st.mainAst.getD [], LCok st.assigns r) ∧
      (∀ t j j', (t, j) ∈ st.assigns → (t, j') ∈ st.assigns → j = j') := by
  cases fuel with
  | zero => omega
  | succ f =>
    have hSB : StackBound (entryState entry) rank (rank entry) := by
      intro q hq
      by_cases hqe : q = entry
      · subst hqe; omega
      · have h' : entry ≠ q := fun hh => hqe hh.symm
        simp [entryState, lookupKey, h'] at hq
    obtain ⟨body, st2, hpi⟩ := processItems_succeeds
      (fun t s => recurseResolve R C f t (some entry) s) R rank entry true 0 (rank entry)
      (fun t s i s' hs hv => recurseResolve_spec R C f t entry s i s' hs hv)
      (fun t s hrt hs hsb => recurseResolve_succeeds R C rank hR f t entry s (by omega) hs hsb)
      (C entry) (entryState entry) (Inv_entryState entry) hSB
      (fun hh => by cases hh) (fun spec hs => hR entry spec hs) (fun _ => hE)
    have hb : processBuild R C entry (f + 1) = .ok { st2 with mainAst := some body } := by
      rw [processBuild, recurseResolve_entry_run, hpi]
      rfl
    obtain ⟨hI, _, hmain⟩ := processBuild_ok_spec R C entry (f + 1) _ hb
    refine ⟨_, hb, ?_, hI.parses_eq, ?_, ?_, ?_⟩
    · rw [hI.parses_eq]; exact hI.fst_nodup
    · exact fun i bd hibd r hr => hI.ast_ok i bd hibd r hr
    · exact fun r hr => (hmain r hr).toLCok
    · exact fun t j j' h1 h2 => keyVal_unique hI.fst_nodup h1 h2

/-- Witness for the amended C5: the diamond graph is ranked, its entry has
no export assignment, and the theorem yields the successful build. -/
theorem claim_C5_witness : (processBuild Rid Cdiamond 0 6).isOk = true := by
  have hR : ∀ x spec, SrcItem.require spec ∈ Cdiamond x →
      ∃ t, Rid x spec = some t ∧ rankDiamond t < rankDiamond x := by
    intro x spec h
    match x with
    | 0 =>
      simp [Cdiamond] at h
      rcases h with rfl | rfl
      · exact ⟨1, rfl, by decide⟩
      · exact ⟨2, rfl, by decide⟩
    | 1 =>
      simp [Cdiamond] at h
      subst h
      exact ⟨2, rfl, by decide⟩
    | 2 => simp [Cdiamond] at h
    | (n + 3) => simp [Cdiamond] at h
  obtain ⟨st, hst, _⟩ := claim_C5_amended Rid Cdiamond rankDiamond 0 6 hR (by decide) (by decide)
  rw [hst]
  rfl

/-! ### The loader's caching semantics (C1) -/

/-- C1 counterexample: the claim promises that every factory body runs at
most once per program run and that two loader invocations for the same id
return the identical cached instance, but the loader's guard
`if __OL__cached_packages[id] then` is a truthiness test and its cache
write stores the factory's return value unconditionally.  A module that
exports through the `package.loaded[...] = ...` idiom without a trailing
return yields a nil-returning factory: the loader clobbers the module's
own cache write with nil, the next invocation sees a falsy cache entry,
and the body runs again - here the instrumented run counter reaches 2
after two invocations of id 5 from the empty state, and the cache entry
is nil rather than the exported value. -/
theorem claim_C1_counterexample :
    (OLrequire luaTruthy exportNoReturnFactory 5
      (OLrequire luaTruthy exportNoReturnFactory 5 emptyLuaState).2).2.runs 5 = 2 ∧
    (OLrequire luaTruthy exportNoReturnFactory 5 emptyLuaState).2.cache 5 = .nil := by
  constructor <;> rfl

/-- C1 as amended: in the emitted program, a loader invocation whose
cache entry is truthy returns that entry unchanged without touching the
factory; and starting from a state whose cache entry for the id is falsy,
provided the factory's return value at that state is truthy, invoking the
loader twice in sequence returns the identical instance both times (the
second call returns the exact value and state of the first) while the
factory body - instrumented to bump its run counter on every execution -
runs exactly once, at the first invocation.  A factory returning a falsy
value (nil or false) escapes the guarantee and re-runs on every
invocation. -/
theorem claim_C1_amended {V : Type} (truthy : V → Bool)
    (packages : Nat → LoaderState V → V × LoaderState V) (id : Nat) (s : LoaderState V)
    (hrun : ∀ s0, ((packages id s0).2).runs id = s0.runs id + 1) :
    (truthy (s.cache id) = true → OLrequire truthy packages id s = (s.cache id, s)) ∧
    (truthy (s.cache id) = false →
      truthy (packages id s).1 = true →
      (OLrequire truthy packages id s).2.cache id = (OLrequire truthy packages id s).1 ∧
      OLrequire truthy packages id (OLrequire truthy packages id s).2 =
        ((OLrequire truthy packages id s).1, (OLrequire truthy packages id s).2) ∧
      (OLrequire truthy packages id s).2.runs id = s.runs id + 1) := by
  constructor
  · intro hv
    simp [OLrequire, hv]
  · intro hfalsy htruthy
    have h1 : OLrequire truthy packages id s =
        ((packages id s).1, { (packages id s).2 with
          cache := fun j => if j = id then (packages id s).1
                            else (packages id s).2.cache j }) := by
      simp [OLrequire, hfalsy]
    refine ⟨?_, ?_, ?_⟩
    · rw [h1]
      simp
    · rw [h1]
      simp [OLrequire, htruthy]
    · rw [h1]
      exact hrun s

/-- Witness for the amended C1: with the truthy number-returning factory,
requiring id 5 twice from the empty state returns the cached pair and has
run the factory exactly once. -/
theorem claim_C1_witness :
    OLrequire luaTruthy numberFactory 5 (OLrequire luaTruthy numberFactory 5 emptyLuaState).2 =
      ((OLrequire luaTruthy numberFactory 5 emptyLuaState).1,
        (OLrequire luaTruthy numberFactory 5 emptyLuaState).2) ∧
    (OLrequire luaTruthy numberFactory 5 emptyLuaState).2.runs 5 = 1 := by
  have h := claim_C1_amended luaTruthy numberFactory 5 emptyLuaState
    (fun s0 => by simp [numberFactory])
  obtain ⟨ha, hb, hc⟩ := h.2 rfl rfl
  refine ⟨hb, ?_⟩
  rw [hc]
  exact rfl

/-! ### The resolver's strategy order (C4) -/

/-- C4: resolution tries exactly four strategies in order and the first
match wins.  (1) If the specifier (dots turned into separators, the fixed
extension appended) exists relative to the requiring script's directory,
that script results, keeping the requirer's package.  (2) Otherwise, when
the requiring script has an owning package and the candidate relative to
that package's main-script directory exists, that script results.  (3)
Otherwise, when the requiring script is unpackaged and the candidate
relative to the entry script's directory exists, that (unpackaged) script
results.  (4) When none of those hit, the result is exactly the
installed-dependency lookup; and that lookup reports not-found whenever
the found package's manifest fails to declare its own entry field. -/
theorem claim_C4 (fsExists : String → Bool) (manifests : String → Option PkgConfig)
    (npmResolve : String → String → Option (String × String)) (entryDir : String)
    (base : LuaScript) (module : String) :
    (fsExists (joinPath base.baseDir (dotsToSlashes module ++ luaExt)) = true →
      getRequiredModule fsExists manifests npmResolve entryDir base module =
        some (mkLuaScript (joinPath base.baseDir (dotsToSlashes module ++ luaExt))
          base.package)) ∧
    (∀ pkg, fsExists (joinPath base.baseDir (dotsToSlashes module ++ luaExt)) = false →
      base.package = some pkg →
      fsExists (joinPath pkg.mainDir (dotsToSlashes module ++ luaExt)) = true →
      getRequiredModule fsExists manifests npmResolve entryDir base module =
        some (mkLuaScript (joinPath pkg.mainDir (dotsToSlashes module ++ luaExt))
          (some pkg))) ∧
    (fsExists (joinPath base.baseDir (dotsToSlashes module ++ luaExt)) = false →
      base.package = none →
      fsExists (joinPath entryDir (dotsToSlashes module ++ luaExt)) = true →
      getRequiredModule fsExists manifests npmResolve entryDir base module =
        some (mkLuaScript (joinPath entryDir (dotsToSlashes module ++ luaExt)) none)) ∧
    (fsExists (joinPath base.baseDir (dotsToSlashes module ++ luaExt)) = false →
      (∀ pkg, base.package = some pkg →
        fsExists (joinPath pkg.mainDir (dotsToSlashes module ++ luaExt)) = false) →
      (base.package = none →
        fsExists (joinPath entryDir (dotsToSlashes module ++ luaExt)) = false) →
      getRequiredModule fsExists manifests npmResolve entryDir base module =
        (match npmResolve (dotsToSlashes module) base.baseDir with
         | none => none
         | some (nodeModPath, pkgPath) =>
           match fromPackageJson manifests fsExists (joinPath pkgPath pkgJsonName) with
           | none => none
           | some pkg => some (mkLuaScript nodeModPath (some pkg)))) ∧
    (fsExists (joinPath base.baseDir (dotsToSlashes module ++ luaExt)) = false →
      (∀ pkg, base.package = some pkg →
        fsExists (joinPath pkg.mainDir (dotsToSlashes module ++ luaExt)) = false) →
      (base.package = none →
        fsExists (joinPath entryDir (dotsToSlashes module ++ luaExt)) = false) →
      ∀ nm pd, npmResolve (dotsToSlashes module) base.baseDir = some (nm, pd) →
      (∀ cfg, manifests (joinPath pd pkgJsonName) = some cfg → cfg.oneluaMain = none) →
      getRequiredModule fsExists manifests npmResolve entryDir base module = none) := by
  refine ⟨?_, ?_, ?_, ?_, ?_⟩
  · intro h1
    simp [getRequiredModule, h1]
  · intro pkg h1 hp h2
    simp [getRequiredModule, h1, hp, h2]
  · intro h1 hp h3
    simp [getRequiredModule, h1, hp, h3]
  · intro h1 hp2 hp3
    cases hp : base.package with
    | some pkg => simp [getRequiredModule, h1, hp, hp2 pkg hp]
    | none => simp [getRequiredModule, h1, hp, hp3 hp]
  · intro h1 hp2 hp3 nm pd hnpm hcfg
    have hfrom : fromPackageJson manifests fsExists (joinPath pd pkgJsonName) = none := by
      cases hm : manifests (joinPath pd pkgJsonName) with
      | none => simp [fromPackageJson, hm]
      | some cfg => simp [fromPackageJson, hm, hcfg cfg hm]
    cases hp : base.package with
    | some pkg => simp [getRequiredModule, h1, hp, hp2 pkg hp, hnpm, hfrom]
    | none => simp [getRequiredModule, h1, hp, hp3 hp, hnpm, hfrom]

/-- Witness for C4: in the demo filesystem the first strategy misses and
the second (package-main-relative) hits; separately, with nothing on disk
and no npm result, resolution is not found. -/
theorem claim_C4_witness :
    getRequiredModule fsDemo manifestsDemo npmDemo entryDirDemo baseDemo moduleDemo =
      some (mkLuaScript (joinPath pkgMainDirDemo
        (dotsToSlashes moduleDemo ++ luaExt)) (some demoPkg)) ∧
    getRequiredModule (fun _ => false) manifestsDemo npmDemo entryDirDemo baseDemo moduleDemo =
      none := by
  constructor
  · exact (claim_C4 fsDemo manifestsDemo npmDemo entryDirDemo baseDemo moduleDemo).2.1
      demoPkg rfl rfl rfl
  · have h := (claim_C4 (fun _ => false) manifestsDemo npmDemo entryDirDemo baseDemo
      moduleDemo).2.2.2.1 rfl (fun _ _ => rfl) (fun _ => rfl)
    rw [h]
    rfl

/-! ### The emitted program's shape (C6) -/

theorem mem_insertAsc (x a : Nat) (l : List Nat) : a ∈ insertAsc x l ↔ a = x ∨ a ∈ l := by
  induction l with
  | nil => simp [insertAsc]
  | cons y ys ih =>
    by_cases h : x ≤ y
    · simp [insertAsc, h]
    · simp [insertAsc, h, ih]
      tauto

theorem sorted_insertAsc (x : Nat) {l : List Nat} (h : l.Sorted (· ≤ ·)) :
    (insertAsc x l).Sorted (· ≤ ·) := by
  induction l with
  | nil => simp [insertAsc]
  | cons y ys ih =>
    rw [List.sorted_cons] at h
    by_cases hxy : x ≤ y
    · rw [insertAsc, if_pos hxy, List.sorted_cons]
      refine ⟨?_, List.sorted_cons.2 h⟩
      intro b hb
      rcases List.mem_cons.1 hb with rfl | hb'
      · exact hxy
      · exact Nat.le_trans hxy (h.1 b hb')
    · rw [insertAsc, if_neg hxy, List.sorted_cons]
      refine ⟨?_, ih h.2⟩
      intro b hb
      rcases (mem_insertAsc x b ys).1 hb with rfl | hb'
      · omega
      · exact h.1 b hb'

theorem sorted_sortAsc (l : List Nat) : (sortAsc l).Sorted (· ≤ ·) := by
  induction l with
  | nil => simp [sortAsc]
  | cons y ys ih => exact sorted_insertAsc y ih

theorem mem_sortAsc (a : Nat) (l : List Nat) : a ∈ sortAsc l ↔ a ∈ l := by
  induction l with
  | nil => simp [sortAsc]
  | cons y ys ih =>
    rw [sortAsc, mem_insertAsc, ih, List.mem_cons]

/-- Pushing one registry entry per key onto an accumulator chunk appends
exactly the mapped entries. -/
theorem foldl_chunk_body (modulesAst : List (Nat × LChunk)) :
    ∀ (keys : List Nat) (acc : LChunk),
      (keys.foldl (fun acc i =>
        { acc with body := acc.body ++ [createRequireDef i (chunkAt modulesAst i).body],
                   globals := acc.globals ++ (chunkAt modulesAst i).globals }) acc).body =
        acc.body ++ keys.map (fun i => createRequireDef i (chunkAt modulesAst i).body) := by
  intro keys
  induction keys with
  | nil => intro acc; simp
  | cons k ks ih =>
    intro acc
    rw [List.foldl_cons, ih, List.map_cons]
    simp

/-- C6: the emitted program's statement list is, in order: the forward
declaration of the loader identifier; the empty registry table and the
empty instance-cache table; one registry entry per resolved id, the ids
in ascending order and ranging over exactly the registry's keys, each
mapping its id to a zero-argument factory wrapping that module's
rewritten body; the loader definition (return the cached instance if
present, otherwise call the id's factory, store and return the result);
and finally the rewritten entry script's statements appended verbatim as
top-level statements. -/
theorem claim_C6 (modulesAst : List (Nat × LChunk)) (mainAst : LChunk) :
    (createFinalAst modulesAst mainAst).body =
      [forwardDecl] ++ [packagesDecl, cachedDecl] ++
        (sortAsc (modulesAst.map Prod.fst)).map
          (fun i => createRequireDef i (chunkAt modulesAst i).body) ++
        [OLrequireDef] ++ mainAst.body ∧
    (sortAsc (modulesAst.map Prod.fst)).Sorted (· ≤ ·) ∧
    (∀ i, i ∈ sortAsc (modulesAst.map Prod.fst) ↔ i ∈ modulesAst.map Prod.fst) := by
  refine ⟨?_, sorted_sortAsc _, fun i => mem_sortAsc i _⟩
  show (createFinalAst modulesAst mainAst).body = _
  rw [createFinalAst]
  simp only [foldl_chunk_body modulesAst]
  simp

/-! ### The export-assignment rewrite (C7, C9) -/

/-- C7: an assignment whose (first) target matches the reserved
export-slot pattern `package.loaded[...]` raises InvalidExportPosition in
the entry script, and in any other module is rewritten into an indexed
write into the bundle-wide cache table at that module's own id, keeping
the right-hand sides. -/
theorem claim_C7 (isEntry : Bool) (thisModuleId : Nat) (vars init : List LExpr)
    (hm : matchesExportSlot vars = true) :
    (isEntry = true → assignmentHook isEntry thisModuleId (.assign vars init) =
      .error .invalidExportPosition) ∧
    (isEntry = false → assignmentHook isEntry thisModuleId (.assign vars init) =
      .ok (.assign [.index (.ident OLcachedName false) (.numberLit thisModuleId)] init)) := by
  constructor
  · rintro rfl
    simp [assignmentHook, hm]
  · rintro rfl
    simp [assignmentHook, hm]

/-- Witness for C7 at the concrete export node: the entry raises, a
module with id 3 rewrites. -/
theorem claim_C7_witness :
    assignmentHook true 3 (.assign [exportTarget] [.numberLit 7]) =
      .error .invalidExportPosition ∧
    assignmentHook false 3 (.assign [exportTarget] [.numberLit 7]) =
      .ok (.assign [.index (.ident OLcachedName false) (.numberLit 3)] [.numberLit 7]) := by
  have h := claim_C7 true 3 [exportTarget] [.numberLit 7] (by rfl)
  have h' := claim_C7 false 3 [exportTarget] [.numberLit 7] (by rfl)
  exact ⟨h.1 rfl, h'.2 rfl⟩

/-- C9: when a multi-target assignment's first target matches the
export-slot pattern in a non-entry module, the rewrite replaces the
entire target list with the single cache-table write at the module's id,
silently discarding every other target while keeping the full list of
right-hand-side expressions. -/
theorem claim_C9 (thisModuleId : Nat) (first : LExpr) (others init : List LExpr)
    (hm : matchesExportSlot (first :: others) = true) :
    assignmentHook false thisModuleId (.assign (first :: others) init) =
      .ok (.assign [.index (.ident OLcachedName false) (.numberLit thisModuleId)] init) := by
  simp [assignmentHook, hm]

/-- Witness for C9: `package.loaded[...], x = 1, 2` in module 3 keeps
both right-hand sides but only the cache-table target. -/
theorem claim_C9_witness :
    assignmentHook false 3
      (.assign [exportTarget, .ident varXName false] [.numberLit 1, .numberLit 2]) =
      .ok (.assign [.index (.ident OLcachedName false) (.numberLit 3)]
        [.numberLit 1, .numberLit 2]) :=
  claim_C9 3 exportTarget [.ident varXName false] [.numberLit 1, .numberLit 2] (by rfl)

/-! ### The import-call rewrite (C8, C10) -/

/-- C8 counterexample: the claim says an import call whose argument is
not a single string literal raises InvalidRequireArgument, but a require
call with two arguments - the first a string literal - raises nothing:
only `arguments[0]` is inspected (src/onelua.js line 180) and the call is
rewritten, discarding the extra argument. -/
theorem claim_C8_counterexample :
    callHook demoGetReq demoResolveId
      (.call (.ident requireName false) [.stringLit specA, .ident varXName false]) =
      .ok (.call (.ident OLrequireName true) [.numberLit 7]) := rfl

/-- C8 as amended: an import call whose argument list is nonempty and
whose first argument is not a string literal raises
InvalidRequireArgument (naming the offending node type) - arguments past
the first are never inspected; an import call with an empty argument
list crashes with a JS TypeError instead (reading `.type` of an absent
argument), not with InvalidRequireArgument. -/
theorem claim_C8_amended (getRequired : String → Option π)
    (resolveId : π → Except RewriteError Nat) (b : Bool) (a : LExpr) (extras : List LExpr)
    (ha : ∀ s, a ≠ .stringLit s) :
    callHook getRequired resolveId (.call (.ident requireName b) (a :: extras)) =
      .error (.invalidRequireArgument a.typeName) ∧
    callHook getRequired resolveId (.call (.ident requireName b) []) =
      .error .jsTypeError := by
  constructor
  · cases a with
    | stringLit s => exact absurd rfl (ha s)
    | ident nm bl => simp [callHook]
    | numberLit v => simp [callHook]
    | varargLit => simp [callHook]
    | index b i => simp [callHook]
    | member b ix f => simp [callHook]
    | call b as => simp [callHook]
    | strCall b arg => simp [callHook]
    | func ps bd => simp [callHook]
    | table fs => simp [callHook]
  · simp [callHook]

/-- Witness for the amended C8: `require(3)` raises
InvalidRequireArgument naming the numeric-literal type, and `require()`
crashes with the JS type error. -/
theorem claim_C8_witness :
    callHook demoGetReq demoResolveId (.call (.ident requireName false) [.numberLit 3]) =
      .error (.invalidRequireArgument (LExpr.numberLit 3).typeName) ∧
    callHook demoGetReq demoResolveId (.call (.ident requireName false) []) =
      .error .jsTypeError :=
  claim_C8_amended demoGetReq demoResolveId false (.numberLit 3) []
    (fun s h => by cases h)

/-- C10: a general-form import call with a string-literal first argument
only has that first argument inspected; the whole call is replaced by a
loader call with exactly one numeric-literal argument (the resolved id),
so any additional arguments of the original call are discarded from the
output program. -/
theorem claim_C10 (getRequired : String → Option π)
    (resolveId : π → Except RewriteError Nat) (b : Bool) (s : String)
    (extras : List LExpr) (r : π) (id : Nat)
    (hg : getRequired s = some r) (hr : resolveId r = .ok id) :
    callHook getRequired resolveId (.call (.ident requireName b) (.stringLit s :: extras)) =
      .ok (.call (.ident OLrequireName true) [.numberLit id]) := by
  simp [callHook, newAstnode, hg, hr]

/-- Witness for C10: `require("a", x, x)` becomes `__OL__require(7)`,
with both extra arguments gone. -/
theorem claim_C10_witness :
    callHook demoGetReq demoResolveId
      (.call (.ident requireName false)
        [.stringLit specA, .ident varXName false, .ident varXName false]) =
      .ok (.call (.ident OLrequireName true) [.numberLit 7]) :=
  claim_C10 demoGetReq demoResolveId false specA
    [.ident varXName false, .ident varXName false] 7 7 rfl rfl

end OneLua
